import Mathlib

/-!
Verification development for the Bug-bounty-url-fuzzer repository.

The repository has two programs:
* `url-checker.js` (and its variant embedded in `others/main.js` after the
  separator): a bounded-concurrency worker pool ("FetchPool") that probes
  `base + suffix` URLs, classifies each response, and collects results.
* `others/main.js`: an Express server ("JobCoordinator") that runs a
  multi-stage scan pipeline (subfinder, amass, merge, httpx, parse, save)
  inside a worker thread per job, tracks job status in an in-memory `jobs`
  map, and exposes scan/status/download/delete/health routes.

Every definition below is a shallow embedding of a concrete piece of that
source; the source file and line range is recorded in each doc comment.
-/

namespace UrlFuzzer

open List

/-! ## Response classification (url-checker.js lines 116-132, main.js worker lines 570-600) -/

/-- The classification tags assigned by the worker:
`"OK"`, `"REDIRECT"`, `"NOTFOUND/CLIENT"`, `"SERVERERROR"`, `"UNKNOWN"`. -/
inductive Tag where
  | OK
  | REDIRECT
  | NOTFOUND_CLIENT
  | SERVERERROR
  | UNKNOWN
  deriving DecidableEq, Repr

/-- url-checker.js lines 125-129:
`let tag = "UNKNOWN"; if (status >= 200 && status < 300) tag = "OK";
else if (status >= 300 && status < 400) tag = "REDIRECT";
else if (status >= 400 && status < 500) tag = "NOTFOUND/CLIENT";
else if (status >= 500) tag = "SERVERERROR";` -/
def classifyStatus (status : Nat) : Tag :=
  if 200 ≤ status ∧ status < 300 then .OK
  else if 300 ≤ status ∧ status < 400 then .REDIRECT
  else if 400 ≤ status ∧ status < 500 then .NOTFOUND_CLIENT
  else if 500 ≤ status then .SERVERERROR
  else .UNKNOWN

/-- The classification demanded by the spec sentence for C8, word for word:
OK (2xx), REDIRECT (3xx), CLIENT_ERROR (4xx), SERVER_ERROR (5xx, i.e.
`500 <= s < 600`), and UNKNOWN for anything outside those ranges.  Kept
separate from `classifyStatus` (which embeds the source) so the two can be
compared. -/
def specClassifyStatus (status : Nat) : Tag :=
  if 200 ≤ status ∧ status < 300 then .OK
  else if 300 ≤ status ∧ status < 400 then .REDIRECT
  else if 400 ≤ status ∧ status < 500 then .NOTFOUND_CLIENT
  else if 500 ≤ status ∧ status < 600 then .SERVERERROR
  else .UNKNOWN

/-- Outcome of `fetchWithTimeout` (url-checker.js lines 44-57): either
`{ok: true, res}` carrying a response status, or `{ok: false, err}` carrying
an error whose `name` and `message` the worker inspects. -/
inductive FetchOutcome where
  | response (status : Nat)
  | failure (errName errMessage : String)
  deriving DecidableEq, Repr

/-- A classified fetch result: either a numeric-status tag, or the string
status `"ERROR"` with a detail (url-checker.js lines 116-120). -/
inductive Classified where
  | tagged (t : Tag)
  | ERROR (detail : String)
  deriving DecidableEq, Repr

/-- url-checker.js line 117: the reason is the template string
`TIMEOUT (<timeoutMs>ms)` when `err.name === "AbortError"`, and
`err.message || String(err)` otherwise. -/
def errorDetail (timeoutMs : Nat) (errName errMessage : String) : String :=
  if errName = "AbortError" then "TIMEOUT (" ++ toString timeoutMs ++ "ms)"
  else errMessage

/-- The worker body classifying one fetch outcome (url-checker.js lines
116-129): a failed fetch becomes `status: "ERROR"` with the detail string,
a successful fetch is tagged from its numeric status code. -/
def classifyFetch (timeoutMs : Nat) : FetchOutcome → Classified
  | .failure n m => .ERROR (errorDetail timeoutMs n m)
  | .response s => .tagged (classifyStatus s)

/-! ## httpx output parsing (main.js worker lines 126-134, TASK 5) -/

/-- One record of the parsed httpx output: `JSON.parse(l)` on success,
`{_parseError: true, raw: l}` on a parse failure.  `α` stands for the
parsed JSON value type. -/
inductive HttpxRecord (α : Type) where
  | parsed (value : α)
  | parseError (raw : String)
  deriving DecidableEq, Repr

/-- main.js worker lines 129-131, after the `raw.split('\n')`:
`.filter(Boolean).map(l => try JSON.parse(l) catch return (parse-error
record with raw l))`.  `lines` is the split result, `jsonParse` stands for
`JSON.parse`, returning `none` exactly when the source would throw;
`filter(Boolean)` drops empty strings (the only falsy strings). -/
def parseHttpxLines {α : Type} (jsonParse : String → Option α)
    (lines : List String) : List (HttpxRecord α) :=
  (lines.filter (fun l => l ≠ "")).map (fun l =>
    match jsonParse l with
    | some v => .parsed v
    | none => .parseError l)

/-- The whole parse stage: split the probe output on newlines, then filter
and map as above. -/
def parseHttpxOutput {α : Type} (jsonParse : String → Option α) (raw : String) :
    List (HttpxRecord α) :=
  parseHttpxLines jsonParse (raw.splitOn "\n")

/-! ## Merge stage (main.js worker lines 92-109, TASK 3) -/

/-- The single-quote character, written via its code point. -/
def sq : String := String.mk [Char.ofNat 39]

/-- The shell quoting applied to each merged file path (main.js line 103):
`"'" + p.replace(/'/g, "'\\''") + "'"` — wrap in single quotes after
replacing every single quote by quote-backslash-quote-quote. -/
def shellQuote (p : String) : String :=
  sq ++ (p.replace sq (sq ++ "\\" ++ sq ++ sq)) ++ sq

/-- The composed merge command string (main.js line 103):
`cat <quoted parts joined by spaces> | sort -u > "<allList>"`. -/
def mergeCommandString (parts : List String) (allList : String) : String :=
  "cat " ++ String.intercalate " " (parts.map shellQuote)
    ++ " | sort -u > \"" ++ allList ++ "\""

/-- One external-tool invocation as `spawnCmd(cmd, args, opts)` receives it
(main.js worker lines 38-60): a command and an argument list. -/
structure Invocation where
  cmd : String
  args : List String
  deriving DecidableEq, Repr

/-- main.js line 103: the merge stage runs
`spawnCmd('bash', ['-lc', <mergeCommandString>])` when at least one
discovery output file is present. -/
def mergeInvocation (parts : List String) (allList : String) : Invocation :=
  { cmd := "bash", args := ["-lc", mergeCommandString parts allList] }

/-- main.js lines 101-107: with at least one present input the merge stage
shells out (`some` invocation); with none it writes an empty `all.txt`
directly (`none`, no external invocation). -/
def mergeStageInvocation (parts : List String) (allList : String) :
    Option Invocation :=
  match parts with
  | [] => none
  | _ => some (mergeInvocation parts allList)

/-- Semantics of the merge stage on file contents (lists of lines).
With no present input files the source writes an empty `all.txt`
(main.js line 106); otherwise it runs `cat parts | sort -u > all.txt`,
whose effect on the concatenated lines is sort-and-deduplicate
(`sort -u` is modelled by `dedup` then `mergeSort`). -/
def mergeStage (files : List (List String)) : List String :=
  match files with
  | [] => []
  | _ => (files.flatten.dedup).mergeSort

/-- main.js lines 74, 85, 95, 229: the per-job work directory and the
stage output files are derived from the server-generated job id alone
(`scans/scan-<jobId>/...`); the hostname never enters a file path. -/
def workdirOf (jobId : String) : String := "scans/scan-" ++ jobId

/-- main.js line 74: `path.join(workdir, 'subfinder.txt')`. -/
def subfinderOut (jobId : String) : String := workdirOf jobId ++ "/subfinder.txt"

/-- main.js line 85: `path.join(workdir, 'amass.txt')`. -/
def amassOut (jobId : String) : String := workdirOf jobId ++ "/amass.txt"

/-- main.js line 95: `path.join(workdir, 'all.txt')`. -/
def allListOf (jobId : String) : String := workdirOf jobId ++ "/all.txt"

/-- main.js lines 97-99: `parts` collects whichever of the two discovery
output files exist, subfinder first. -/
def partsOf (jobId : String) (subfinderPresent amassPresent : Bool) : List String :=
  (if subfinderPresent then [subfinderOut jobId] else [])
    ++ (if amassPresent then [amassOut jobId] else [])

/-! ## Job coordinator (main.js lines 16-312) -/

/-- `'queued' | 'running' | 'done' | 'failed'` (main.js line 17). -/
inductive JobStatus where
  | queued
  | running
  | done
  | failed
  deriving DecidableEq, Repr

/-- One value of the `jobs` map (main.js line 17):
`jobId -> (status, worker?, meta?, error?)`.  `worker` records whether the
entry holds a live worker reference; `meta` is the opaque result document. -/
structure JobEntry where
  status : JobStatus
  error : Option String := none
  meta : Option String := none
  worker : Bool := false
  deriving DecidableEq, Repr

/-- The in-memory job table, a JS `Map` from job id to entry
(main.js line 18: `const jobs = new Map()`). -/
def Table := List (String × JobEntry)

/-- `jobs.get(k)` — `none` models JS `undefined`. -/
def tget (tbl : Table) (k : String) : Option JobEntry :=
  List.lookup k tbl

/-- `jobs.set(k, v)`: replace the entry for `k`, inserting it if absent. -/
def tset : Table → String → JobEntry → Table
  | [], k, v => [(k, v)]
  | (k0, v0) :: rest, k, v =>
    if k0 = k then (k, v) :: rest else (k0, v0) :: tset rest k v

/-- `jobs.delete(k)`. -/
def tdel : Table → String → Table
  | [], _ => []
  | (k0, v0) :: rest, k =>
    if k0 = k then rest else (k0, v0) :: tdel rest k

/-- `jobs.has(k)`. -/
def thas (tbl : Table) (k : String) : Bool :=
  (tget tbl k).isSome

/-- Messages posted by the worker over `parentPort`
(main.js lines 69, 161, 163: `type: 'log' | 'done' | 'error'`). -/
inductive WorkerMsg where
  | log (message : String)
  | done (meta : String)
  | error (error : String)
  deriving DecidableEq, Repr

/-- Events the coordinator receives for one job: a posted message
(`worker.on('message')`, line 177), a worker-thread error
(`worker.on('error')`, line 194), or thread exit with a code
(`worker.on('exit')`, line 200). -/
inductive WorkerEvent where
  | message (m : WorkerMsg)
  | errorEvent (err : String)
  | exitEvent (code : Int)
  deriving DecidableEq, Repr

/-- main.js line 234: `jobs.set(jobId, { status: 'queued' })`. -/
def setQueued (jobId : String) (tbl : Table) : Table :=
  tset tbl jobId { status := .queued }

/-- main.js line 175: `jobs.set(jobId, { status: 'running', worker })`. -/
def setRunning (jobId : String) (tbl : Table) : Table :=
  tset tbl jobId { status := .running, worker := true }

/-- The `worker.on('message')` handler (main.js lines 177-192): `log` only
logs; `done` stores `{ status: 'done', meta }`; `error` stores
`{ status: 'failed', error }`. -/
def onMessage (jobId : String) (m : WorkerMsg) (tbl : Table) : Table :=
  match m with
  | .log _ => tbl
  | .done meta => tset tbl jobId { status := .done, meta := some meta }
  | .error err => tset tbl jobId { status := .failed, error := some err }

/-- The `worker.on('error')` handler (main.js lines 194-198):
`jobs.set(jobId, { status: 'failed', error: err.message })`. -/
def onErrorEvent (jobId : String) (err : String) (tbl : Table) : Table :=
  tset tbl jobId { status := .failed, error := some err }

/-- The `worker.on('exit')` handler (main.js lines 200-208): only when
`code !== 0`, and only when the current status (of `jobs.get(jobId) || \x7b\x7d`)
is neither `'done'` nor `'failed'`, store a synthetic failure entry. -/
def onExitEvent (jobId : String) (code : Int) (tbl : Table) : Table :=
  if code = 0 then tbl
  else
    let st := (tget tbl jobId).map (·.status)
    if st = some .done ∨ st = some .failed then tbl
    else tset tbl jobId
      { status := .failed, error := some ("worker exited with code " ++ toString code) }

/-- Dispatch of one worker event to the matching handler. -/
def onWorkerEvent (jobId : String) (e : WorkerEvent) (tbl : Table) : Table :=
  match e with
  | .message m => onMessage jobId m tbl
  | .errorEvent err => onErrorEvent jobId err tbl
  | .exitEvent code => onExitEvent jobId code tbl

/-- The table effect of `DELETE /results/:jobId` (main.js lines 286-308):
request worker termination (no table effect; the exit event arrives later),
remove the scan directory, then `jobs.delete(jobId)`. -/
def cancelJob (jobId : String) (tbl : Table) : Table :=
  tdel tbl jobId

/-- Responses of the routes modelled here. -/
inductive Response where
  | statusOk (jobId : String) (status : JobStatus) (error : Option String)
      (meta : Option String)
  | jobNotFound
  | healthOk
  | otherHandled
  | noRoute
  deriving DecidableEq, Repr

/-- The `GET /status/:jobId` handler (main.js lines 249-265).
`persistedMeta` is `some meta` exactly when `scans/scan-<jobId>/meta.json`
exists and `JSON.parse` succeeds; in that fallback the source answers with
the hardcoded status `'done'` (line 258). -/
def statusHandler (jobId : String) (tbl : Table) (persistedMeta : Option String) :
    Response :=
  match tget tbl jobId with
  | none =>
    match persistedMeta with
    | some meta => .statusOk jobId .done none (some meta)
    | none => .jobNotFound
  | some job => .statusOk jobId job.status job.error job.meta

/-! ## Express routing (main.js lines 213, 249, 268, 286, 310) -/

inductive Method where
  | GET
  | POST
  | DELETE
  deriving DecidableEq, Repr

/-- One segment of a route pattern: a literal, or a `:name` parameter. -/
inductive Seg where
  | lit (s : String)
  | param (name : String)
  deriving DecidableEq, Repr

/-- The handlers registered on the app, in source order. -/
inductive Handler where
  | scan
  | statusJob
  | download
  | deleteResults
  | health
  deriving DecidableEq, Repr

structure RouteDef where
  method : Method
  pattern : List Seg
  handler : Handler
  deriving DecidableEq, Repr

/-- The routes exactly in registration order: `POST /scan` (line 213),
`GET /status/:jobId` (line 249), `GET /download/:jobId` (line 268),
`DELETE /results/:jobId` (line 286), `GET /status/health` (line 310). -/
def routes : List RouteDef :=
  [ { method := .POST, pattern := [.lit "scan"], handler := .scan },
    { method := .GET, pattern := [.lit "status", .param "jobId"], handler := .statusJob },
    { method := .GET, pattern := [.lit "download", .param "jobId"], handler := .download },
    { method := .DELETE, pattern := [.lit "results", .param "jobId"], handler := .deleteResults },
    { method := .GET, pattern := [.lit "status", .lit "health"], handler := .health } ]

/-- Express path matching for one segment: a literal matches itself, a
`:param` matches any non-empty segment. -/
def segMatches : Seg → String → Bool
  | .lit s, seg => s == seg
  | .param _, seg => !(seg == "")

def matchRoute (m : Method) (segs : List String) (r : RouteDef) : Bool :=
  (m == r.method) && (r.pattern.length == segs.length)
    && ((r.pattern.zip segs).all fun ps => segMatches ps.1 ps.2)

/-- Express dispatch: the first registered route matching method and path. -/
def dispatch (m : Method) (segs : List String) : Option RouteDef :=
  routes.find? (matchRoute m segs)

/-- Serving one request: dispatch, then run the matched handler.  Only the
status and health handlers are modelled in detail; for `/status/:jobId` the
parameter is the second path segment. -/
def handleRequest (m : Method) (segs : List String) (tbl : Table)
    (fsMeta : String → Option String) : Response :=
  match dispatch m segs with
  | some r =>
    match r.handler with
    | .statusJob =>
      let jobId := (segs.get? 1).getD ""
      statusHandler jobId tbl (fsMeta jobId)
    | .health => .healthOk
    | _ => .otherHandled
  | none => .noRoute

/-! ## Observable status sequence of one job (main.js lines 174-245)

`POST /scan` writes `queued` (line 234), `startScanWorker` immediately
writes `running` (line 175), and afterwards the table changes only through
the worker's message/error/exit handlers.  A worker thread emits a stream
of `log` messages, then at most one terminal signal (a `done` message, an
`error` message, or an uncaught-error event), and finally exactly one exit
event; messages are delivered in order before the exit event. -/

/-- The status of a job as a status query observes it through the table. -/
def statusAt (jobId : String) (tbl : Table) : Option JobStatus :=
  (tget tbl jobId).map (·.status)

/-- All table states along a run of the event handlers, starting state
included. -/
def statesFrom (jobId : String) (tbl : Table) : List WorkerEvent → List Table
  | [] => [tbl]
  | e :: es => tbl :: statesFrom jobId (onWorkerEvent jobId e tbl) es

/-- The table states over a job's lifetime: after `queued` is written,
after `running` is written, and after each worker event. -/
def jobTables (jobId : String) (events : List WorkerEvent) : List Table :=
  setQueued jobId [] ::
    statesFrom jobId (setRunning jobId (setQueued jobId [])) events

/-- Collapse consecutive repeats, so the result lists the statuses in the
order a poller could observe them change. -/
def collapseRuns : List JobStatus → List JobStatus
  | [] => []
  | [a] => [a]
  | a :: b :: rest =>
    if a = b then collapseRuns (b :: rest) else a :: collapseRuns (b :: rest)

/-- The sequence of distinct statuses observable through the job table over
the job's lifetime. -/
def statusSeq (jobId : String) (events : List WorkerEvent) : List JobStatus :=
  collapseRuns ((jobTables jobId events).filterMap (statusAt jobId))

/-- The event streams a worker thread can deliver for one job: `log`
messages, then at most one terminal signal, then one exit event. -/
def ValidWorkerTrace (events : List WorkerEvent) : Prop :=
  ∃ (logs : List String) (term : List WorkerEvent) (code : Int),
    events = logs.map (fun s => .message (.log s)) ++ term ++ [.exitEvent code] ∧
    (term = [] ∨ (∃ m, term = [.message (.done m)]) ∨
      (∃ e, term = [.message (.error e)]) ∨ (∃ e, term = [.errorEvent e]))

/-! ## FetchPool worker pool (url-checker.js lines 102-140, main.js lines 556-621)

`let i = 0; async function worker() { while (true) { const index = i++;
if (index >= lines.length) break; ... results.push(...); } }` started as
`Array(Math.min(concurrency, lines.length)).fill(0).map(() => worker())`.
The cursor read-and-increment `i++` is a single synchronous step (no await
can interleave inside it); the fetch between a claim and the `results.push`
is a suspension point, so claim and completion are separate steps that the
scheduler may interleave across workers arbitrarily. -/

/-- The control state of one `worker()` coroutine: at the top of the loop,
holding a claimed index while its fetch is in flight, or exited. -/
inductive WState where
  | idle
  | holding (t : Nat)
  | exited
  deriving DecidableEq, Repr

/-- The shared state of one pool run: the shared cursor `i`, the worker
coroutines, and the in-memory `results` collection (each result recorded by
the index of the task it came from; completion order may differ from task
order). -/
structure PoolState where
  cursor : Nat
  workers : List WState
  results : List Nat
  deriving DecidableEq, Repr

/-- One scheduler step of the pool with task count `N`:
a worker at the loop top atomically runs `const index = i++` and either
keeps the claimed index (`index < N`) or breaks (`index >= N`); a worker
whose fetch finished pushes its result and returns to the loop top. -/
inductive PoolStep (N : Nat) : PoolState → PoolState → Prop where
  | claim (s : PoolState) (i : Nat) (h : s.workers.get? i = some .idle)
      (hc : s.cursor < N) :
      PoolStep N s ⟨s.cursor + 1, s.workers.set i (.holding s.cursor), s.results⟩
  | claimExit (s : PoolState) (i : Nat) (h : s.workers.get? i = some .idle)
      (hc : N ≤ s.cursor) :
      PoolStep N s ⟨s.cursor + 1, s.workers.set i .exited, s.results⟩
  | complete (s : PoolState) (i t : Nat) (h : s.workers.get? i = some (.holding t)) :
      PoolStep N s ⟨s.cursor, s.workers.set i .idle, s.results ++ [t]⟩

/-- The initial pool state: cursor `0`, `Math.min(concurrency, N)` idle
workers, no results. -/
def initPool (C N : Nat) : PoolState :=
  ⟨0, List.replicate (min C N) .idle, []⟩

/-- Reachability under any interleaving of pool steps. -/
def PoolReach (N : Nat) : PoolState → PoolState → Prop :=
  Relation.ReflTransGen (PoolStep N)

/-- `Promise.all(workers)` has resolved: every worker has exited. -/
def AllExited (s : PoolState) : Prop :=
  ∀ w ∈ s.workers, w = .exited

/-- The indices currently claimed but not yet pushed to `results`. -/
def heldTasks (ws : List WState) : List Nat :=
  ws.filterMap fun w =>
    match w with
    | .holding t => some t
    | _ => none

/-- Invariant of the pool: the worker count never changes, the claimed
indices (pushed or in flight) are exactly `0..min cursor N - 1` with no
duplicates, and a worker can only have exited after the cursor passed `N`. -/
structure PoolInv (C N : Nat) (s : PoolState) : Prop where
  len : s.workers.length = min C N
  perm : (s.results ++ heldTasks s.workers).Perm (List.range (min s.cursor N))
  exitCursor : WState.exited ∈ s.workers → N ≤ s.cursor

/-! ## Helper lemmas -/

theorem tget_tset_self : ∀ (tbl : Table) (k : String) (v : JobEntry),
    tget (tset tbl k v) k = some v
  | [], k, v => by simp [tget, tset, List.lookup]
  | (k0, v0) :: rest, k, v => by
    by_cases h : k0 = k
    · simp [tset, h, tget, List.lookup]
    · have ih := tget_tset_self rest k v
      have hbk : (k == k0) = false := beq_eq_false_iff_ne.mpr (Ne.symm h)
      simp only [tset, if_neg h, tget, List.lookup, hbk] at ih ⊢
      exact ih

theorem statusAt_tset_self (tbl : Table) (k : String) (v : JobEntry) :
    statusAt k (tset tbl k v) = some v.status := by
  simp [statusAt, tget_tset_self]

theorem filterMap_set_perm {α β : Type} [DecidableEq β] (f : α → Option β) :
    ∀ (l : List α) (i : Nat) (a b : α), l.get? i = some a →
      (List.filterMap f (l.set i b) ++ (f a).toList).Perm
        (List.filterMap f l ++ (f b).toList)
  | [], i, a, b, h => by simp at h
  | x :: xs, 0, a, b, h => by
    simp only [List.get?_cons_zero, Option.some_inj] at h
    subst h
    simp only [List.set_cons_zero]
    refine List.perm_iff_count.mpr fun c => ?_
    cases hx : f x <;> cases hb : f b <;>
      simp [List.filterMap_cons, hx, hb, List.count_append, List.count_cons] <;> omega
  | x :: xs, i + 1, a, b, h => by
    simp only [List.get?_cons_succ] at h
    have ih := filterMap_set_perm f xs i a b h
    simp only [List.set_cons_succ]
    cases hx : f x with
    | none => simpa [List.filterMap_cons, hx] using ih
    | some c => simpa [List.filterMap_cons, hx] using ih.cons c

theorem heldTasks_set_claim {ws : List WState} {i t : Nat}
    (h : ws.get? i = some .idle) :
    (heldTasks (ws.set i (.holding t))).Perm (heldTasks ws ++ [t]) := by
  simpa [heldTasks] using
    filterMap_set_perm (fun w => match w with | .holding t => some t | _ => none)
      ws i .idle (.holding t) h

theorem heldTasks_set_exit {ws : List WState} {i : Nat}
    (h : ws.get? i = some .idle) :
    (heldTasks (ws.set i .exited)).Perm (heldTasks ws) := by
  simpa [heldTasks] using
    filterMap_set_perm (fun w => match w with | .holding t => some t | _ => none)
      ws i .idle .exited h

theorem heldTasks_set_complete {ws : List WState} {i t : Nat}
    (h : ws.get? i = some (.holding t)) :
    (heldTasks (ws.set i .idle) ++ [t]).Perm (heldTasks ws) := by
  simpa [heldTasks] using
    filterMap_set_perm (fun w => match w with | .holding t => some t | _ => none)
      ws i (.holding t) .idle h

theorem poolInv_init (C N : Nat) : PoolInv C N (initPool C N) := by
  refine ⟨by simp [initPool], ?_, ?_⟩
  · have hnil : heldTasks (List.replicate (min C N) WState.idle) = [] :=
      List.filterMap_eq_nil_iff.mpr fun a ha => by
        rw [List.eq_of_mem_replicate ha]
    simp [initPool, hnil]
  · intro hmem
    simp only [initPool] at hmem
    have h2 := List.eq_of_mem_replicate hmem
    simp at h2

theorem poolInv_step {C N : Nat} {s s2 : PoolState} (inv : PoolInv C N s)
    (st : PoolStep N s s2) : PoolInv C N s2 := by
  cases st with
  | claim i h hc =>
    refine ⟨by simpa using inv.len, ?_, ?_⟩
    · show (s.results ++ heldTasks (s.workers.set i (.holding s.cursor))).Perm
        (List.range (min (s.cursor + 1) N))
      have hmin : min (s.cursor + 1) N = min s.cursor N + 1 := by omega
      have hmin2 : min s.cursor N = s.cursor := by omega
      calc s.results ++ heldTasks (s.workers.set i (.holding s.cursor))
          ~ s.results ++ (heldTasks s.workers ++ [s.cursor]) :=
            (heldTasks_set_claim h).append_left s.results
        _ = (s.results ++ heldTasks s.workers) ++ [s.cursor] := by
            rw [List.append_assoc]
        _ ~ List.range (min s.cursor N) ++ [s.cursor] := inv.perm.append_right _
        _ = List.range (min (s.cursor + 1) N) := by
            rw [hmin, hmin2, List.range_succ]
    · intro hmem
      rcases List.mem_or_eq_of_mem_set hmem with hin | heq
      · exact le_trans (inv.exitCursor hin) (Nat.le_succ _)
      · simp at heq
  | claimExit i h hc =>
    refine ⟨by simpa using inv.len, ?_, fun _ => le_trans hc (Nat.le_succ _)⟩
    show (s.results ++ heldTasks (s.workers.set i .exited)).Perm
      (List.range (min (s.cursor + 1) N))
    have hmin : min (s.cursor + 1) N = min s.cursor N := by omega
    rw [hmin]
    calc s.results ++ heldTasks (s.workers.set i .exited)
        ~ s.results ++ heldTasks s.workers := (heldTasks_set_exit h).append_left _
      _ ~ List.range (min s.cursor N) := inv.perm
  | complete i t h =>
    refine ⟨by simpa using inv.len, ?_, ?_⟩
    · show ((s.results ++ [t]) ++ heldTasks (s.workers.set i .idle)).Perm
        (List.range (min s.cursor N))
      calc (s.results ++ [t]) ++ heldTasks (s.workers.set i .idle)
          = s.results ++ ([t] ++ heldTasks (s.workers.set i .idle)) := by
            rw [List.append_assoc]
        _ ~ s.results ++ (heldTasks (s.workers.set i .idle) ++ [t]) :=
            (List.perm_append_comm).append_left _
        _ ~ s.results ++ heldTasks s.workers :=
            (heldTasks_set_complete h).append_left _
        _ ~ List.range (min s.cursor N) := inv.perm
    · intro hmem
      rcases List.mem_or_eq_of_mem_set hmem with hin | heq
      · exact inv.exitCursor hin
      · simp at heq

theorem poolInv_reach {C N : Nat} {s : PoolState}
    (hr : PoolReach N (initPool C N) s) : PoolInv C N s := by
  induction hr with
  | refl => exact poolInv_init C N
  | tail _ hbc ih => exact poolInv_step ih hbc

/-- C1: for every FetchPool run with concurrency `C ≥ 1` over `N` suffixes,
in any interleaving of the `min C N` workers that ends with all workers
exited, the indices recorded in the in-memory `results` collection are a
permutation of `0..N-1` — each index claimed by exactly one worker through
the shared cursor, none duplicated, none skipped — and exactly `N` results
were produced. -/
theorem fetchPool_claims_each_index_once (C N : Nat) (hC : 1 ≤ C)
    (s : PoolState) (hr : PoolReach N (initPool C N) s) (ht : AllExited s) :
    s.results.Perm (List.range N) ∧ s.results.length = N ∧
      ∀ i, i < N → s.results.count i = 1 := by
  have inv := poolInv_reach hr
  have hheld : heldTasks s.workers = [] :=
    List.filterMap_eq_nil_iff.mpr fun a ha => by rw [ht a ha]
  have hcur : min s.cursor N = N := by
    rcases Nat.eq_zero_or_pos N with h0 | hpos
    · omega
    · have hlen : s.workers.length = min C N := inv.len
      have hpos2 : 0 < s.workers.length := by omega
      obtain ⟨w, hw⟩ := List.exists_mem_of_length_pos hpos2
      have hwex := ht w hw
      subst hwex
      have := inv.exitCursor hw
      omega
  have hperm : s.results.Perm (List.range N) := by
    have hp := inv.perm
    rw [hheld, List.append_nil, hcur] at hp
    exact hp
  refine ⟨hperm, by rw [hperm.length_eq, List.length_range], fun i hi => ?_⟩
  rw [hperm.count_eq]
  exact List.count_eq_one_of_mem (List.nodup_range N) (List.mem_range.mpr hi)

/-- Witness for C1: a concrete complete run with concurrency 2 over one
suffix (one worker claims index 0, completes it, then exits on the
exhausted cursor). -/
theorem fetchPool_claims_each_index_once_witness :
    (1 ≤ 2 ∧ PoolReach 1 (initPool 2 1) ⟨2, [.exited], [0]⟩ ∧
        AllExited (⟨2, [.exited], [0]⟩ : PoolState)) ∧
      ((⟨2, [.exited], [0]⟩ : PoolState).results.Perm (List.range 1) ∧
        (⟨2, [.exited], [0]⟩ : PoolState).results.length = 1 ∧
        ∀ i, i < 1 → (⟨2, [.exited], [0]⟩ : PoolState).results.count i = 1) := by
  have step1 : PoolStep 1 (initPool 2 1) ⟨1, [WState.holding 0], []⟩ :=
    PoolStep.claim (initPool 2 1) 0 rfl (by decide)
  have step2 : PoolStep 1 ⟨1, [WState.holding 0], []⟩ ⟨1, [WState.idle], [0]⟩ :=
    PoolStep.complete ⟨1, [WState.holding 0], []⟩ 0 0 rfl
  have step3 : PoolStep 1 ⟨1, [WState.idle], [0]⟩ ⟨2, [WState.exited], [0]⟩ :=
    PoolStep.claimExit ⟨1, [WState.idle], [0]⟩ 0 rfl (by decide)
  have hr : PoolReach 1 (initPool 2 1) ⟨2, [.exited], [0]⟩ :=
    Relation.ReflTransGen.head step1 (Relation.ReflTransGen.head step2
      (Relation.ReflTransGen.single step3))
  have ht : AllExited (⟨2, [.exited], [0]⟩ : PoolState) :=
    fun w hw => by simpa using hw
  exact ⟨⟨by omega, hr, ht⟩,
    fetchPool_claims_each_index_once 2 1 (by omega) _ hr ht⟩

theorem collapseRuns_cons_cons_self (a b : JobStatus) (l : List JobStatus) :
    collapseRuns (a :: b :: b :: l) = collapseRuns (a :: b :: l) := by
  by_cases hab : a = b <;> simp [collapseRuns, hab]

/-- A `log` message leaves the job table, hence the observable status
sequence, unchanged. -/
theorem statusSeq_log_cons (jobId : String) (s : String)
    (rest : List WorkerEvent) :
    statusSeq jobId (.message (.log s) :: rest) = statusSeq jobId rest := by
  unfold statusSeq jobTables
  have hq : statusAt jobId (setQueued jobId []) = some .queued :=
    statusAt_tset_self [] jobId _
  have hr : statusAt jobId (setRunning jobId (setQueued jobId []))
      = some .running := statusAt_tset_self _ jobId _
  have hA : statesFrom jobId (setRunning jobId (setQueued jobId []))
        (WorkerEvent.message (WorkerMsg.log s) :: rest)
      = setRunning jobId (setQueued jobId []) ::
          statesFrom jobId (setRunning jobId (setQueued jobId [])) rest := rfl
  rw [hA]
  obtain ⟨T, hT⟩ : ∃ T, statesFrom jobId (setRunning jobId (setQueued jobId []))
      rest = setRunning jobId (setQueued jobId []) :: T := by
    cases rest <;> exact ⟨_, rfl⟩
  rw [hT]
  simp only [List.filterMap_cons, hq, hr]
  exact collapseRuns_cons_cons_self _ _ _

/-- C3: over any worker event stream the thread can deliver, the sequence
of statuses observable through the job table is a prefix of
`queued, running, done` or of `queued, running, failed`, and `running` is
never observed twice. -/
theorem job_statusSeq_monotone (jobId : String) (events : List WorkerEvent)
    (hv : ValidWorkerTrace events) :
    ((statusSeq jobId events <+: [JobStatus.queued, .running, .done]) ∨
        (statusSeq jobId events <+: [JobStatus.queued, .running, .failed])) ∧
      (statusSeq jobId events).count .running ≤ 1 := by
  obtain ⟨logs, term, code, hev, hterm⟩ := hv
  subst hev
  induction logs with
  | cons s ls ih =>
    simp only [List.map_cons, List.cons_append]
    rw [statusSeq_log_cons]
    exact ih
  | nil =>
    simp only [List.map_nil, List.nil_append]
    have hq : statusAt jobId (setQueued jobId []) = some .queued :=
      statusAt_tset_self [] jobId _
    have hrun : statusAt jobId (setRunning jobId (setQueued jobId []))
        = some .running := statusAt_tset_self _ jobId _
    have hget1 : tget (setRunning jobId (setQueued jobId [])) jobId
        = some { status := .running, worker := true } := tget_tset_self _ jobId _
    rcases hterm with h | ⟨m, h⟩ | ⟨e, h⟩ | ⟨e, h⟩ <;> subst h
    · -- no terminal message, just the exit event
      simp only [List.nil_append]
      by_cases hc : code = 0
      · have ht2 : onWorkerEvent jobId (.exitEvent code)
            (setRunning jobId (setQueued jobId []))
            = setRunning jobId (setQueued jobId []) := by
          simp [onWorkerEvent, onExitEvent, hc]
        have hseq : statusSeq jobId [.exitEvent code]
            = [JobStatus.queued, .running] := by
          unfold statusSeq jobTables
          simp only [statesFrom, ht2, List.filterMap_cons, hq, hrun,
            List.filterMap_nil]
          rfl
        rw [hseq]
        exact ⟨Or.inl ⟨[.done], rfl⟩, by decide⟩
      · have ht2 : onWorkerEvent jobId (.exitEvent code)
            (setRunning jobId (setQueued jobId []))
            = tset (setRunning jobId (setQueued jobId [])) jobId
                { status := .failed,
                  error := some ("worker exited with code " ++ toString code) } := by
          simp [onWorkerEvent, onExitEvent, hc, hget1]
        have hfail : statusAt jobId
            (tset (setRunning jobId (setQueued jobId [])) jobId
              { status := .failed,
                error := some ("worker exited with code " ++ toString code) })
            = some .failed := statusAt_tset_self _ jobId _
        have hseq : statusSeq jobId [.exitEvent code]
            = [JobStatus.queued, .running, .failed] := by
          unfold statusSeq jobTables
          simp only [statesFrom, ht2, List.filterMap_cons, hq, hrun, hfail,
            List.filterMap_nil]
          rfl
        rw [hseq]
        exact ⟨Or.inr ⟨[], rfl⟩, by decide⟩
    · -- done message, then exit
      have ht2 : onWorkerEvent jobId (.message (.done m))
          (setRunning jobId (setQueued jobId []))
          = tset (setRunning jobId (setQueued jobId [])) jobId
              { status := .done, meta := some m } := rfl
      have ht3 : onWorkerEvent jobId (.exitEvent code)
          (tset (setRunning jobId (setQueued jobId [])) jobId
            { status := .done, meta := some m })
          = tset (setRunning jobId (setQueued jobId [])) jobId
              { status := .done, meta := some m } := by
        simp [onWorkerEvent, onExitEvent, tget_tset_self]
      have hdone : statusAt jobId
          (tset (setRunning jobId (setQueued jobId [])) jobId
            { status := .done, meta := some m }) = some .done :=
        statusAt_tset_self _ jobId _
      have hseq : statusSeq jobId [.message (.done m), .exitEvent code]
          = [JobStatus.queued, .running, .done] := by
        unfold statusSeq jobTables
        simp only [statesFrom, ht2, ht3, List.filterMap_cons, hq, hrun, hdone,
          List.filterMap_nil]
        rfl
      simp only [List.singleton_append]
      rw [hseq]
      exact ⟨Or.inl ⟨[], rfl⟩, by decide⟩
    · -- error message, then exit
      have ht2 : onWorkerEvent jobId (.message (.error e))
          (setRunning jobId (setQueued jobId []))
          = tset (setRunning jobId (setQueued jobId [])) jobId
              { status := .failed, error := some e } := rfl
      have ht3 : onWorkerEvent jobId (.exitEvent code)
          (tset (setRunning jobId (setQueued jobId [])) jobId
            { status := .failed, error := some e })
          = tset (setRunning jobId (setQueued jobId [])) jobId
              { status := .failed, error := some e } := by
        simp [onWorkerEvent, onExitEvent, tget_tset_self]
      have hfail : statusAt jobId
          (tset (setRunning jobId (setQueued jobId [])) jobId
            { status := .failed, error := some e }) = some .failed :=
        statusAt_tset_self _ jobId _
      have hseq : statusSeq jobId [.message (.error e), .exitEvent code]
          = [JobStatus.queued, .running, .failed] := by
        unfold statusSeq jobTables
        simp only [statesFrom, ht2, ht3, List.filterMap_cons, hq, hrun, hfail,
          List.filterMap_nil]
        rfl
      simp only [List.singleton_append]
      rw [hseq]
      exact ⟨Or.inr ⟨[], rfl⟩, by decide⟩
    · -- worker-thread error event, then exit
      have ht2 : onWorkerEvent jobId (.errorEvent e)
          (setRunning jobId (setQueued jobId []))
          = tset (setRunning jobId (setQueued jobId [])) jobId
              { status := .failed, error := some e } := rfl
      have ht3 : onWorkerEvent jobId (.exitEvent code)
          (tset (setRunning jobId (setQueued jobId [])) jobId
            { status := .failed, error := some e })
          = tset (setRunning jobId (setQueued jobId [])) jobId
              { status := .failed, error := some e } := by
        simp [onWorkerEvent, onExitEvent, tget_tset_self]
      have hfail : statusAt jobId
          (tset (setRunning jobId (setQueued jobId [])) jobId
            { status := .failed, error := some e }) = some .failed :=
        statusAt_tset_self _ jobId _
      have hseq : statusSeq jobId [.errorEvent e, .exitEvent code]
          = [JobStatus.queued, .running, .failed] := by
        unfold statusSeq jobTables
        simp only [statesFrom, ht2, ht3, List.filterMap_cons, hq, hrun, hfail,
          List.filterMap_nil]
        rfl
      simp only [List.singleton_append]
      rw [hseq]
      exact ⟨Or.inr ⟨[], rfl⟩, by decide⟩

/-- Witness for C3: a concrete trace with one log message, a `done`
message, and a clean exit. -/
theorem job_statusSeq_monotone_witness :
    ValidWorkerTrace
        [.message (.log "x"), .message (.done "meta"), .exitEvent 0] ∧
      (((statusSeq "j" [.message (.log "x"), .message (.done "meta"),
            .exitEvent 0] <+: [JobStatus.queued, .running, .done]) ∨
          (statusSeq "j" [.message (.log "x"), .message (.done "meta"),
            .exitEvent 0] <+: [JobStatus.queued, .running, .failed])) ∧
        (statusSeq "j" [.message (.log "x"), .message (.done "meta"),
          .exitEvent 0]).count .running ≤ 1) := by
  have hv : ValidWorkerTrace
      [.message (.log "x"), .message (.done "meta"), .exitEvent 0] :=
    ⟨["x"], [.message (.done "meta")], 0, rfl, Or.inr (Or.inl ⟨"meta", rfl⟩)⟩
  exact ⟨hv, job_statusSeq_monotone "j" _ hv⟩

/-- C2 counterexample: a worker exit with code 0 for a job still `running`
leaves the job `running` — the exit handler synthesizes a failure only for
nonzero exit codes, so the claim is false "for any exit code". -/
theorem running_job_exit_zero_stays_running :
    statusAt "j1" (onWorkerEvent "j1" (.exitEvent 0)
        [("j1", { status := JobStatus.running, worker := true })])
      = some JobStatus.running ∧
      (JobStatus.running == JobStatus.failed) = false := by
  exact ⟨rfl, rfl⟩

/-- C2 (amended): for every NONZERO exit code, a job whose table status is
still `running` when its worker thread exits is transitioned to `failed`
with the synthetic `worker exited with code ...` detail. -/
theorem running_job_nonzero_exit_fails (jobId : String) (code : Int)
    (tbl : Table) (hc : code ≠ 0)
    (hrun : statusAt jobId tbl = some JobStatus.running) :
    statusAt jobId (onWorkerEvent jobId (.exitEvent code) tbl)
      = some JobStatus.failed := by
  have hst : (tget tbl jobId).map (·.status) = some JobStatus.running := hrun
  have h2 : onWorkerEvent jobId (.exitEvent code) tbl
      = tset tbl jobId
          { status := .failed,
            error := some ("worker exited with code " ++ toString code) } := by
    show onExitEvent jobId code tbl = _
    unfold onExitEvent
    rw [if_neg hc]
    simp [hst]
  rw [h2, statusAt_tset_self]

/-- Witness for C2 (amended): exit code 1 on a running job. -/
theorem running_job_nonzero_exit_fails_witness :
    ((1 : Int) ≠ 0 ∧
        statusAt "j1" [("j1", { status := JobStatus.running, worker := true })]
          = some JobStatus.running) ∧
      statusAt "j1" (onWorkerEvent "j1" (.exitEvent 1)
          [("j1", { status := JobStatus.running, worker := true })])
        = some JobStatus.failed :=
  ⟨⟨by decide, rfl⟩,
    running_job_nonzero_exit_fails "j1" 1
      [("j1", { status := JobStatus.running, worker := true })]
      (by decide) rfl⟩

/-- C4: the code evaluated at the failing input.  Cancel a running job
(`DELETE /results/:jobId` deletes the table entry); the worker's exit event
— emitted by the terminated thread, with code 1 — is still handled
afterwards, and since the entry is gone the guard `job.status !== 'done' &&
!== 'failed'` passes, so `jobs.set` re-creates an entry for the cancelled
id and a subsequent status query returns it instead of NotFound. -/
theorem cancelled_job_entry_resurrected_by_exit :
    cancelJob "ab12cd34ef56"
        [("ab12cd34ef56", { status := JobStatus.running, worker := true })]
      = [] ∧
    statusHandler "ab12cd34ef56" [] none = Response.jobNotFound ∧
    onWorkerEvent "ab12cd34ef56" (.exitEvent 1) []
      = [("ab12cd34ef56",
          { status := JobStatus.failed,
            error := some "worker exited with code 1" })] ∧
    statusHandler "ab12cd34ef56"
        (onWorkerEvent "ab12cd34ef56" (.exitEvent 1) []) none
      = Response.statusOk "ab12cd34ef56" JobStatus.failed
          (some "worker exited with code 1") none ∧
    (Response.statusOk "ab12cd34ef56" JobStatus.failed
        (some "worker exited with code 1") none == Response.jobNotFound)
      = false := by
  refine ⟨rfl, rfl, ?_, ?_, by decide⟩ <;> rfl

/-! ### C5: the merge invocation shells out through a composed string -/

theorem ne_of_data_head_ne {s t : String}
    (h : s.data.head? ≠ t.data.head?) : s ≠ t :=
  fun he => h (by rw [he])

theorem mergeCommandString_head (parts : List String) (allList : String) :
    (mergeCommandString parts allList).data.head? = some ('c') := by
  unfold mergeCommandString
  rw [String.data_append, String.data_append, String.data_append,
    String.data_append]
  rw [show "cat ".data = 'c' :: "at ".data from rfl]
  simp

theorem subfinderOut_head (jobId : String) :
    (subfinderOut jobId).data.head? = some ('s') := by
  unfold subfinderOut workdirOf
  rw [String.data_append, String.data_append]
  rw [show "scans/scan-".data = 's' :: "cans/scan-".data from rfl]
  simp

theorem amassOut_head (jobId : String) :
    (amassOut jobId).data.head? = some ('s') := by
  unfold amassOut workdirOf
  rw [String.data_append, String.data_append]
  rw [show "scans/scan-".data = 's' :: "cans/scan-".data from rfl]
  simp

/-- C5 counterexample: with one present discovery file for a concrete job,
the merge stage does run an external invocation, that invocation is the
interpreter `bash`, and the input file path is NOT an element of its
argument list (it is embedded inside the single composed `-lc` string) —
refuting "any external invocation passes its arguments as a literal
argument list". -/
theorem merge_invocation_not_literal_args :
    mergeStageInvocation [subfinderOut "ab12"] (allListOf "ab12")
      = some (mergeInvocation [subfinderOut "ab12"] (allListOf "ab12")) ∧
    (mergeInvocation [subfinderOut "ab12"] (allListOf "ab12")).cmd = "bash" ∧
    subfinderOut "ab12"
      ∉ (mergeInvocation [subfinderOut "ab12"] (allListOf "ab12")).args := by
  refine ⟨rfl, rfl, ?_⟩
  intro hmem
  have hargs : (mergeInvocation [subfinderOut "ab12"] (allListOf "ab12")).args
      = ["-lc", mergeCommandString [subfinderOut "ab12"] (allListOf "ab12")] :=
    rfl
  rw [hargs] at hmem
  rcases List.mem_cons.mp hmem with h1 | h2
  · exact ne_of_data_head_ne (by rw [subfinderOut_head]; decide) h1
  · have h2' : subfinderOut "ab12"
        = mergeCommandString [subfinderOut "ab12"] (allListOf "ab12") := by
      simpa using h2
    exact ne_of_data_head_ne
      (by rw [subfinderOut_head, mergeCommandString_head]; decide) h2'

/-- C5 (amended): the merge stage, whenever at least one discovery output
file is present, invokes the external interpreter `bash` with the single
composed command string `cat <quoted paths> | sort -u > "<allList>"`;
the file paths are embedded in that string and are never elements of the
literal argument list.  The paths are derived from the server-generated
job id (`scans/scan-<jobId>/...`), not from the hostname, and with no
present input no external invocation happens at all. -/
theorem merge_invocation_composed_string (jobId : String) (sp ap : Bool) :
    (mergeInvocation (partsOf jobId sp ap) (allListOf jobId)).cmd = "bash" ∧
    (mergeInvocation (partsOf jobId sp ap) (allListOf jobId)).args
      = ["-lc", mergeCommandString (partsOf jobId sp ap) (allListOf jobId)] ∧
    (∀ p ∈ partsOf jobId sp ap,
      p ∉ (mergeInvocation (partsOf jobId sp ap) (allListOf jobId)).args) ∧
    (partsOf jobId sp ap
      = (if sp then [subfinderOut jobId] else [])
        ++ (if ap then [amassOut jobId] else [])) ∧
    mergeStageInvocation [] (allListOf jobId) = none := by
  refine ⟨rfl, rfl, ?_, rfl, rfl⟩
  intro p hp hmem
  have hphead : p.data.head? = some ('s') := by
    unfold partsOf at hp
    rcases List.mem_append.mp hp with h | h
    · rcases sp with _ | _
      · simp at h
      · rw [show p = subfinderOut jobId by simpa using h]
        exact subfinderOut_head jobId
    · rcases ap with _ | _
      · simp at h
      · rw [show p = amassOut jobId by simpa using h]
        exact amassOut_head jobId
  rcases List.mem_cons.mp hmem with h1 | h2
  · exact ne_of_data_head_ne (by rw [hphead]; decide) h1
  · have h2' : p = mergeCommandString (partsOf jobId sp ap) (allListOf jobId) := by
      simpa using h2
    exact ne_of_data_head_ne
      (by rw [hphead, mergeCommandString_head]; decide) h2'

/-- C6: the merge stage tolerates zero, one or two present inputs: with no
present input it produces the empty output (not a failure), and with at
least one present input — entries possibly overlapping — its output has no
duplicates, is lexicographically sorted, and contains exactly the entries
of the concatenated inputs. -/
theorem mergeStage_empty_and_dedup_sorted :
    mergeStage [] = [] ∧
      ∀ files : List (List String), files ≠ [] →
        (mergeStage files).Nodup ∧
          (mergeStage files).Sorted (· ≤ ·) ∧
          ∀ a, a ∈ mergeStage files ↔ a ∈ files.flatten := by
  refine ⟨rfl, fun files hne => ?_⟩
  have hms : mergeStage files = (files.flatten.dedup).mergeSort := by
    cases files with
    | nil => exact absurd rfl hne
    | cons f fs => rfl
  rw [hms]
  refine ⟨(List.mergeSort_perm _ _).nodup_iff.mpr (List.nodup_dedup _),
    List.sorted_mergeSort' _, fun a => ?_⟩
  rw [(List.mergeSort_perm _ _).mem_iff, List.mem_dedup]

/-- Witness for C6: two overlapping input files merge to a sorted,
duplicate-free list. -/
theorem mergeStage_empty_and_dedup_sorted_witness :
    (["b", "a"] : List String) ≠ [] ∧
      (mergeStage [["b", "a"], ["a", "c"]]).Nodup ∧
      (mergeStage [["b", "a"], ["a", "c"]]).Sorted (· ≤ ·) ∧
      ∀ a, a ∈ mergeStage [["b", "a"], ["a", "c"]]
        ↔ a ∈ ([["b", "a"], ["a", "c"]] : List (List String)).flatten := by
  have h := (mergeStage_empty_and_dedup_sorted).2 [["b", "a"], ["a", "c"]]
    (by decide)
  exact ⟨by decide, h⟩

/-- C7: the parse stage produces exactly one record per non-empty input
line, positionally: line `i` yields a `parsed` record when `JSON.parse`
succeeds on it and otherwise a `parseError` record carrying the original
line text; no line is dropped. -/
theorem parse_stage_record_per_line {α : Type}
    (jsonParse : String → Option α) (lines : List String) (raw : String) :
    parseHttpxOutput jsonParse raw
        = parseHttpxLines jsonParse (raw.splitOn "\n") ∧
      (parseHttpxLines jsonParse lines).length
        = (lines.filter (fun l => l ≠ "")).length ∧
      ∀ i l, (lines.filter (fun l => l ≠ "")).get? i = some l →
        (parseHttpxLines jsonParse lines).get? i
          = some (match jsonParse l with
              | some v => .parsed v
              | none => .parseError l) := by
  refine ⟨rfl, by simp [parseHttpxLines], fun i l hl => ?_⟩
  unfold parseHttpxLines
  rw [List.get?_map, hl]
  rfl

/-- Witness for C7: a three-line input (one blank) with a parser that
rejects everything; line 1 of the non-empty lines is preserved as a
parse-error record. -/
theorem parse_stage_record_per_line_witness :
    ((["a", "", "b"] : List String).filter (fun l => l ≠ "")).get? 1
        = some "b" ∧
      (parseHttpxLines (fun _ => (none : Option Nat)) ["a", "", "b"]).get? 1
        = some (HttpxRecord.parseError "b") :=
  ⟨by decide,
    (parse_stage_record_per_line (fun _ => (none : Option Nat))
      ["a", "", "b"] "").2.2 1 "b" (by decide)⟩

/-- C8 counterexample: status code 600 lies outside all the ranges the
claim lists, so the claim demands UNKNOWN there, but the source tags every
status ≥ 500 as SERVERERROR (`else if (status >= 500)` has no upper
bound). -/
theorem classifyStatus_600_not_unknown :
    classifyStatus 600 = Tag.SERVERERROR ∧
      specClassifyStatus 600 = Tag.UNKNOWN ∧
      (Tag.SERVERERROR == Tag.UNKNOWN) = false := by
  decide

/-- C8 (amended): failures are classified ERROR with a detail that is the
TIMEOUT string exactly for abort (timeout) errors and the error message
otherwise; response status codes are classified OK iff 2xx, REDIRECT iff
3xx, CLIENT iff 4xx, SERVERERROR iff s ≥ 500 (no upper bound), and UNKNOWN
iff s < 200. -/
theorem classifyFetch_ranges (timeoutMs s : Nat) (n msg : String) :
    (classifyStatus s = Tag.OK ↔ 200 ≤ s ∧ s < 300) ∧
      (classifyStatus s = Tag.REDIRECT ↔ 300 ≤ s ∧ s < 400) ∧
      (classifyStatus s = Tag.NOTFOUND_CLIENT ↔ 400 ≤ s ∧ s < 500) ∧
      (classifyStatus s = Tag.SERVERERROR ↔ 500 ≤ s) ∧
      (classifyStatus s = Tag.UNKNOWN ↔ s < 200) ∧
      classifyFetch timeoutMs (.response s) = .tagged (classifyStatus s) ∧
      classifyFetch timeoutMs (.failure n msg)
        = .ERROR (errorDetail timeoutMs n msg) ∧
      errorDetail timeoutMs n msg
        = (if n = "AbortError"
            then "TIMEOUT (" ++ toString timeoutMs ++ "ms)" else msg) := by
  refine ⟨?_, ?_, ?_, ?_, ?_, rfl, rfl, rfl⟩ <;>
    · unfold classifyStatus
      split_ifs <;> simp_all <;> omega

/-- C9: the code evaluated at the failing input.  `GET /status/health` is
dispatched to the earlier-registered route `/status/:jobId` with
`jobId = "health"`; with no job named "health" in the table and no
persisted `scans/scan-health/meta.json`, the server answers 404
job-not-found — the health handler (200 `ok: true`) is unreachable. -/
theorem health_endpoint_shadowed :
    dispatch .GET ["status", "health"]
      = some { method := .GET, pattern := [.lit "status", .param "jobId"],
               handler := .statusJob } ∧
    handleRequest .GET ["status", "health"] [] (fun _ => none)
      = Response.jobNotFound ∧
    (Response.jobNotFound == Response.healthOk) = false := by
  exact ⟨rfl, rfl, rfl⟩

/-- C10: when a job id is absent from the in-memory table but its persisted
metadata document exists and parses, the status query answers through the
fallback path with the hardcoded status `done` — that path can never report
`failed`. -/
theorem status_fallback_reports_done (jobId meta : String) (tbl : Table)
    (habs : tget tbl jobId = none) :
    statusHandler jobId tbl (some meta)
      = Response.statusOk jobId JobStatus.done none (some meta) := by
  unfold statusHandler
  rw [habs]

/-- Witness for C10: an unknown id with a parsed metadata document. -/
theorem status_fallback_reports_done_witness :
    tget [] "deadbeef1234" = none ∧
      statusHandler "deadbeef1234" [] (some "meta")
        = Response.statusOk "deadbeef1234" JobStatus.done none (some "meta") :=
  ⟨rfl, status_fallback_reports_done "deadbeef1234" "meta" [] rfl⟩

end UrlFuzzer
